import Mathlib

/-!
# Verification of the log-analyzer core (`src/log_analyzer.py`)

A shallow embedding of the parsing / aggregation / summarization pipeline of
`log_analyzer.py` (functions `parse_line`, `summarize_report`, `create_report`
and the helpers they call), together with theorems settling the specification
claims about it.

Modelling conventions:
* Python floats are modelled by exact rationals (`ℚ`); Python's `round` is
  modelled by exact round-half-to-even on rationals (`pyRound`).
* Fallible Python operations (division, `max` of an empty list,
  `statistics.median` of empty data, subscripting `None`, `dict.pop` of a
  missing key) are modelled in the `Except PyError` monad; an uncaught Python
  exception is an `Except.error`.
* A Python dict (insertion-ordered) whose values carry their own key is
  modelled as a `List` of entries in insertion order; the aggregation key of an
  entry of `create_report`'s `report` dict is stored in its `url` field, exactly
  as the source stores `report[url]['url'] = url`.
* The regular-expression engine is not embedded: a raw input line is
  represented by the outcome of `LOG_LINE_PATTERN.match` on it — `none` for a
  line that does not match the pattern, `some r` for a match whose relevant
  captured groups are `r.remote_addr` and `r.request_time` (the only two groups
  `create_report` reads).  Numeric coercion `float(...)` of the captured
  `request_time` string is embedded executably in `pyFloat`.
* Python's `sorted` (a stable ascending sort) is modelled by
  `List.insertionSort`, which is also a stable ascending sort; stable sorting
  with respect to a total preorder has a unique result, so the model is exact.
-/

set_option maxRecDepth 1024

namespace LogAnalyzer

/-- The Python exception kinds the embedded code can raise. -/
inductive PyError where
  /-- `TypeError`, e.g. subscripting `None`. -/
  | typeError
  /-- `KeyError`, e.g. `dict.pop` of a missing key. -/
  | keyError
  /-- `ValueError`, e.g. `max(<empty sequence>)`. -/
  | valueError
  /-- `ZeroDivisionError`. -/
  | zeroDivisionError
  /-- `statistics.StatisticsError`, raised by `median` on empty data. -/
  | statisticsError
deriving Repr, DecidableEq

instance {ε α : Type} [DecidableEq ε] [DecidableEq α] :
    DecidableEq (Except ε α) := fun x y =>
  match x, y with
  | .error a, .error b =>
    if h : a = b then isTrue (by rw [h])
    else isFalse (by intro hh; cases hh; exact h rfl)
  | .error _, .ok _ => isFalse (by intro h; cases h)
  | .ok _, .error _ => isFalse (by intro h; cases h)
  | .ok a, .ok b =>
    if h : a = b then isTrue (by rw [h])
    else isFalse (by intro hh; cases hh; exact h rfl)

/-- The two captured groups of `LOG_LINE_PATTERN` that `create_report` reads
from the `groupdict()` of a successful match: `remote_addr` and
`request_time` (both are strings at this point). -/
structure ParsedLine where
  remote_addr : String
  request_time : String
deriving Repr, DecidableEq

/-- The outcome of `parse_line(line, LOG_LINE_PATTERN)` (lines 131-137) for one
raw line: `LOG_LINE_PATTERN.match` either fails (`none`, `parse_line` returns
`None` after logging at debug severity) or succeeds with the captured groups
(`parse_line` returns the `groupdict()`). -/
abbrev LineMatch := Option ParsedLine

/-- Value of a list of decimal digit characters, most significant first. -/
def digitsVal (ds : List Char) : ℕ :=
  ds.foldl (fun n c => 10 * n + (c.toNat - 48)) 0

/-- Embedding of Python `float(s)` restricted to plain decimal literals
`[+|-] digits [. digits]` (with at least one digit), which covers every
`request_time` field the log format produces.  Any other string — in
particular the `-` that stands for an unknown duration, or arbitrary junk —
fails coercion exactly as `float` raises `ValueError`. -/
def pyFloat (s : String) : Option ℚ :=
  let cs := s.toList
  let sgn : ℚ := match cs with
    | '-' :: _ => -1
    | _ => 1
  let body : List Char := match cs with
    | '-' :: rest => rest
    | '+' :: rest => rest
    | _ => cs
  let ip := body.takeWhile Char.isDigit
  let rest := body.dropWhile Char.isDigit
  match rest with
  | [] => if ip.isEmpty then none else some (sgn * digitsVal ip)
  | '.' :: fp =>
      if fp.all Char.isDigit && !(ip.isEmpty && fp.isEmpty) then
        some (sgn * ((digitsVal ip : ℚ) + (digitsVal fp : ℚ) / 10 ^ fp.length))
      else none
  | _ => none

/-- Python `round` to an integer on exact rationals: round half to even. -/
def pyRoundInt (q : ℚ) : ℤ :=
  let f := ⌊q⌋
  let r := q - (f : ℚ)
  if r < 1 / 2 then f
  else if 1 / 2 < r then f + 1
  else if f % 2 = 0 then f else f + 1

/-- Python `round(q, ndigits)` on exact rationals. -/
def pyRound (q : ℚ) (ndigits : ℕ) : ℚ :=
  (pyRoundInt (q * 10 ^ ndigits) : ℚ) / 10 ^ ndigits

/-- Python division `a / b`: raises `ZeroDivisionError` when `b == 0`. -/
def pyDiv (a b : ℚ) : Except PyError ℚ :=
  if b = 0 then .error .zeroDivisionError else .ok (a / b)

/-- Python `max` on a list: raises `ValueError` on an empty sequence. -/
def pyMax : List ℚ → Except PyError ℚ
  | [] => .error .valueError
  | x :: xs => .ok (xs.foldl max x)

/-- Python `statistics.median`: sort the data; for odd length take the middle
element, for even length the average of the two middle elements; raise
`StatisticsError` on empty data. -/
def pyMedian (data : List ℚ) : Except PyError ℚ :=
  let s := List.insertionSort (fun a b => a ≤ b) data
  let n := s.length
  if n = 0 then .error .statisticsError
  else if n % 2 = 1 then .ok (s.getD (n / 2) 0)
  else .ok ((s.getD (n / 2 - 1) 0 + s.getD (n / 2) 0) / 2)

/-- One value of `create_report`'s `report` dict (a `defaultdict(int)` keyed by
the aggregation key, which the source also stores in the value under `'url'`).
A field holds `none` when the corresponding dict key is absent (for `requests`
this happens after `summarize_report` pops it; the statistics keys are absent
until `summarize_report` writes them).  `count` and `time_sum` read as `0`
when never written, exactly as `defaultdict(int)` yields `0`. -/
structure UrlReport where
  url : String
  count : ℕ
  time_sum : ℚ
  requests : Option (List ℚ)
  count_perc : Option ℚ
  time_perc : Option ℚ
  time_avg : Option ℚ
  time_max : Option ℚ
  time_med : Option ℚ
deriving Repr, DecidableEq

/-- The entry `defaultdict(int)` creates on first access of `report[url]`:
every statistics field absent, counters read as zero. -/
def blankUrlReport (url : String) : UrlReport :=
  ⟨url, 0, 0, none, none, none, none, none, none⟩

/-- One successful aggregation step of `create_report` (lines 180-186): look up
or create `report[url]`, initialize `url`/`requests` on first sighting, then
`count += 1`, `time_sum = round(time_sum + request_time, accuracy)` and append
the duration to `requests`.  Insertion order of the dict is list order. -/
def addToReport (state : List UrlReport) (url : String) (rt : ℚ)
    (accuracy : ℕ) : List UrlReport :=
  let state₁ := if ∃ r ∈ state, r.url = url then state
                else state ++ [blankUrlReport url]
  state₁.map (fun r =>
    if r.url = url then
      { r with
        count := r.count + 1,
        time_sum := pyRound (r.time_sum + rt) accuracy,
        requests := some (r.requests.getD [] ++ [rt]) }
    else r)

/-- The namedtuple `Report` (line 46): the summarized rows plus the global
counters. -/
structure Report where
  report : List UrlReport
  total_requests : ℕ
  total_errors : ℕ
deriving Repr, DecidableEq

/-- The body of the `for url_report in top_reports` loop of `summarize_report`
(lines 146-163) applied to one selected entry: pop `requests` (a `KeyError` if
the key is absent), then compute the derived statistics left to right —
`count_perc`, `time_perc`, `time_avg` (each a division, then `round`),
`time_max` (Python `max`), `time_med` (`statistics.median`) — and write them
into the entry, the first exception aborting the computation. -/
def processUrlReport (total_requests : ℕ) (total_requests_time : ℚ)
    (accuracy : ℕ) (r : UrlReport) : Except PyError UrlReport :=
  match r.requests with
  | none => .error .keyError
  | some url_requests =>
    match pyDiv (100 * (r.count : ℚ)) (total_requests : ℚ) with
    | .error e => .error e
    | .ok cp =>
      match pyDiv (100 * r.time_sum) total_requests_time with
      | .error e => .error e
      | .ok tp =>
        match pyDiv r.time_sum (r.count : ℚ) with
        | .error e => .error e
        | .ok ta =>
          match pyMax url_requests with
          | .error e => .error e
          | .ok tm =>
            match pyMedian url_requests with
            | .error e => .error e
            | .ok md =>
              .ok { r with
                    requests := none,
                    count_perc := some (pyRound cp accuracy),
                    time_perc := some (pyRound tp accuracy),
                    time_avg := some (pyRound ta accuracy),
                    time_max := some tm,
                    time_med := some md }

/-- The sort key of `sorted(report.values(), key=lambda item: item['time_sum'])`:
compare entries by `time_sum` (ascending — the source passes no `reverse`). -/
def timeSumLe (a b : UrlReport) : Prop := a.time_sum ≤ b.time_sum

instance : DecidableRel timeSumLe :=
  fun a b => inferInstanceAs (Decidable (a.time_sum ≤ b.time_sum))

/-- Writing one in-place mutation of a selected entry back into the state: the
dict value for that key is the same object `summarize_report` mutates. -/
def replaceByUrl (state : List UrlReport) (e : UrlReport) : List UrlReport :=
  state.map (fun r => if r.url = e.url then e else r)

/-- The `for url_report in top_reports` loop of `summarize_report`: mutate each
selected entry in order (the mutation is shared with the state, since the
selected dicts are the state's values); the first exception propagates. -/
def summarizeAux (total_requests : ℕ) (total_requests_time : ℚ) (accuracy : ℕ) :
    List UrlReport → List UrlReport →
    Except PyError (List UrlReport × List UrlReport)
  | [], state => .ok ([], state)
  | r :: rest, state =>
    match processUrlReport total_requests total_requests_time accuracy r with
    | .error e => .error e
    | .ok e =>
      match summarizeAux total_requests total_requests_time accuracy rest
          (replaceByUrl state e) with
      | .error err => .error err
      | .ok (es, state') => .ok (e :: es, state')

/-- `summarize_report` (lines 139-164): `top_reports_size = min(size,
len(report))`; select the first `top_reports_size` entries of the state's
values sorted stably ascending by `time_sum` (Python `sorted` with no
`reverse`); mutate each selected entry with its derived statistics.  Returns
the selected rows together with the state after the in-place mutations. -/
def summarize_report (state : List UrlReport) (total_requests : ℕ)
    (total_requests_time : ℚ) (size accuracy : ℕ) :
    Except PyError (List UrlReport × List UrlReport) :=
  let top_reports_size := if size < state.length then size else state.length
  let top_reports :=
    (List.insertionSort timeSumLe state).take top_reports_size
  summarizeAux total_requests total_requests_time accuracy top_reports state

/-- The `for line in read_file(file_path)` loop of `create_report`
(lines 170-189), one line at a time over the match outcomes of the input
lines.  Per line: `total_requests += 1`; a non-matching line makes
`parse_line` return `None` and `request['remote_addr']` raise an uncaught
`TypeError` (`None` is not subscriptable — not in the `except (ValueError,
KeyError)` clause); a matching line whose `request_time` fails `float`
coercion raises `ValueError`, which is caught: `total_errors += 1` and
`break` (the loop stops, keeping the state accumulated so far); otherwise the
record is aggregated and `total_requests_time = round(total_requests_time +
request_time, accuracy)`. -/
def report_loop (accuracy : ℕ) :
    List LineMatch → List UrlReport → ℕ → ℚ → ℕ →
    Except PyError (List UrlReport × ℕ × ℚ × ℕ)
  | [], state, tr, tt, te => .ok (state, tr, tt, te)
  | line :: rest, state, tr, tt, te =>
    match line with
    | none => .error .typeError
    | some pl =>
      match pyFloat pl.request_time with
      | none => .ok (state, tr + 1, tt, te + 1)
      | some rt =>
        report_loop accuracy rest (addToReport state pl.remote_addr rt accuracy)
          (tr + 1) (pyRound (tt + rt) accuracy) te

/-- `create_report` (lines 167-194): run the aggregation loop from empty
state and zero counters, then summarize the final state; any uncaught
exception of either phase propagates. -/
def create_report (lines : List LineMatch) (report_size accuracy : ℕ) :
    Except PyError Report :=
  match report_loop accuracy lines [] 0 0 0 with
  | .error e => .error e
  | .ok (state, tr, tt, te) =>
    match summarize_report state tr tt report_size accuracy with
    | .error e => .error e
    | .ok (top, _) => .ok ⟨top, tr, te⟩

/-- Sum of the `count` fields of an accumulator state. -/
def sumCounts (state : List UrlReport) : ℕ :=
  (state.map (fun r => r.count)).sum

/-- The accumulator run of the specification's §4.2: the `report` dict
obtained by feeding `create_report`'s per-line aggregation step a sequence of
`(key, duration)` additions, starting from the empty dict. -/
def applyAdds (accuracy : ℕ) (adds : List (String × ℚ)) : List UrlReport :=
  adds.foldl (fun st ud => addToReport st ud.1 ud.2 accuracy) []

/-- The specification's "accuracy-rounded running sum": each addition is
followed by rounding to the configured accuracy. -/
def roundedSum (accuracy : ℕ) (ds : List ℚ) : ℚ :=
  ds.foldl (fun s d => pyRound (s + d) accuracy) 0

/-- `x` is representable with at most `n` decimal places. -/
def hasDecimals (x : ℚ) (n : ℕ) : Prop := (x * 10 ^ n).den = 1

/-! ## Helper lemmas -/

theorem pyDiv_ok {a b c : ℚ} (h : pyDiv a b = .ok c) : b ≠ 0 ∧ c = a / b := by
  unfold pyDiv at h
  split at h
  · simp at h
  · rename_i hb
    injection h with h
    exact ⟨hb, h.symm⟩

theorem pyDiv_zero (a : ℚ) : pyDiv a 0 = .error .zeroDivisionError := by
  simp [pyDiv]

theorem pyDiv_of_ne_zero {b : ℚ} (a : ℚ) (hb : b ≠ 0) : pyDiv a b = .ok (a / b) := by
  simp [pyDiv, hb]

theorem processUrlReport_ok {tr : ℕ} {tt : ℚ} {acc : ℕ} {r e : UrlReport}
    (h : processUrlReport tr tt acc r = .ok e) :
    ∃ rs tm md, r.requests = some rs ∧ (tr : ℚ) ≠ 0 ∧ tt ≠ 0 ∧
      pyMax rs = .ok tm ∧ pyMedian rs = .ok md ∧
      e = { r with
            requests := none,
            count_perc := some (pyRound (100 * (r.count : ℚ) / (tr : ℚ)) acc),
            time_perc := some (pyRound (100 * r.time_sum / tt) acc),
            time_avg := some (pyRound (r.time_sum / (r.count : ℚ)) acc),
            time_max := some tm,
            time_med := some md } := by
  unfold processUrlReport at h
  split at h
  · simp at h
  · rename_i rs hreq
    split at h
    · simp at h
    · rename_i cp h1
      split at h
      · simp at h
      · rename_i tp h2
        split at h
        · simp at h
        · rename_i ta h3
          split at h
          · simp at h
          · rename_i tm h4
            split at h
            · simp at h
            · rename_i md h5
              obtain ⟨htr, hcp⟩ := pyDiv_ok h1
              obtain ⟨htt, htp⟩ := pyDiv_ok h2
              obtain ⟨_, hta⟩ := pyDiv_ok h3
              injection h with h
              exact ⟨rs, tm, md, hreq, htr, htt, h4, h5,
                by rw [← h, hcp, htp, hta]⟩

theorem processUrlReport_keyError {tr : ℕ} {tt : ℚ} {acc : ℕ} {r : UrlReport}
    (h : r.requests = none) :
    processUrlReport tr tt acc r = .error .keyError := by
  unfold processUrlReport
  rw [h]

theorem processUrlReport_zeroDiv {tr : ℕ} {tt : ℚ} {acc : ℕ} {r : UrlReport}
    (hreq : r.requests ≠ none) (h : tr = 0 ∨ tt = 0) :
    processUrlReport tr tt acc r = .error .zeroDivisionError := by
  obtain ⟨rs, hrs⟩ := Option.ne_none_iff_exists'.mp hreq
  unfold processUrlReport
  rw [hrs]
  by_cases htr : (tr : ℚ) = 0
  · rw [htr, pyDiv_zero]
  · rcases h with h | h
    · exact absurd (by rw [h, Nat.cast_zero]) htr
    · rw [pyDiv_of_ne_zero _ htr, h, pyDiv_zero]

theorem summarizeAux_ok_mem {tr : ℕ} {tt : ℚ} {acc : ℕ} :
    ∀ {l st out st'}, summarizeAux tr tt acc l st = .ok (out, st') →
      ∀ e ∈ out, ∃ r ∈ l, processUrlReport tr tt acc r = .ok e := by
  intro l
  induction l with
  | nil =>
    intro st out st' h e he
    simp only [summarizeAux, Except.ok.injEq, Prod.mk.injEq] at h
    rw [← h.1] at he
    cases he
  | cons r rest ih =>
    intro st out st' h e he
    unfold summarizeAux at h
    split at h
    · simp at h
    · rename_i e₀ hp
      split at h
      · simp at h
      · rename_i es st₂ hrec
        injection h with h
        obtain ⟨h1, _⟩ := Prod.mk.injEq .. |>.mp h
        rw [← h1] at he
        rcases List.mem_cons.mp he with he | he
        · exact ⟨r, List.mem_cons_self .., he ▸ hp⟩
        · obtain ⟨r', hr', hpr'⟩ := ih hrec e he
          exact ⟨r', List.mem_cons_of_mem _ hr', hpr'⟩

theorem summarizeAux_head_error {tr : ℕ} {tt : ℚ} {acc : ℕ} {r : UrlReport}
    {rest st : List UrlReport} {err : PyError}
    (h : processUrlReport tr tt acc r = .error err) :
    summarizeAux tr tt acc (r :: rest) st = .error err := by
  unfold summarizeAux
  rw [h]

theorem summarize_report_eq (st : List UrlReport) (tr : ℕ) (tt : ℚ)
    (size acc : ℕ) :
    summarize_report st tr tt size acc =
      summarizeAux tr tt acc
        ((List.insertionSort timeSumLe st).take
          (if size < st.length then size else st.length)) st := rfl

theorem mem_of_mem_top {st : List UrlReport} {k : ℕ} {e : UrlReport}
    (h : e ∈ (List.insertionSort timeSumLe st).take k) : e ∈ st :=
  (List.mem_insertionSort timeSumLe).mp (List.take_subset k _ h)

theorem top_head {st : List UrlReport} {size : ℕ} (hst : st ≠ [])
    (hsize : 1 ≤ size) :
    ∃ h t, (List.insertionSort timeSumLe st).take
        (if size < st.length then size else st.length) = h :: t ∧ h ∈ st := by
  have hlen : 1 ≤ st.length := List.length_pos.mpr hst
  cases hs : List.insertionSort timeSumLe st with
  | nil =>
    have := List.length_insertionSort timeSumLe st
    rw [hs] at this
    simp at this
    omega
  | cons a l =>
    obtain ⟨k', hk'⟩ : ∃ k', (if size < st.length then size else st.length)
        = k' + 1 := by
      refine ⟨(if size < st.length then size else st.length) - 1, ?_⟩
      split <;> omega
    refine ⟨a, l.take k', by rw [hk', List.take_succ_cons], ?_⟩
    have ha : a ∈ List.insertionSort timeSumLe st := hs ▸ List.mem_cons_self a l
    exact (List.mem_insertionSort timeSumLe).mp ha

/-! ## Claim C1 -/

/-- **C1.** Code-bug evidence: `summarize_report` selects the entries with the
*smallest* `time_sum`, not the largest.  For the state holding aggregate
`"10.0.0.1"` with `time_sum = 4` and aggregate `"10.0.0.2"` with
`time_sum = 2`, and `limit = 1`, the single selected row is the one for
`"10.0.0.2"` — the key with the *smaller* total time — because the source
sorts ascending (`sorted(...)` with no `reverse=True`) and takes a prefix,
while the claim (and the surrounding program, which calls the selection
`top_reports`) asks for the largest `time_sum` first. -/
theorem C1_selects_smallest_time_sum :
    (summarize_report
        [⟨"10.0.0.1", 1, 4, some [4], none, none, none, none, none⟩,
         ⟨"10.0.0.2", 1, 2, some [2], none, none, none, none, none⟩]
        2 6 1 2).map (fun p => p.1.map (fun e => e.url)) =
      .ok ["10.0.0.2"] := by
  with_unfolding_all decide

/-! ## Claim C2 -/

/-- **C2.** Code-bug evidence: a line whose duration field fails numeric
coercion stops the whole pass (`total_errors += 1; break`) instead of being
skipped.  With three matching lines — a valid one for `"10.0.0.1"`
(duration `0.5`), one with non-numeric duration `"not_a_number"`, and a valid
one for `"10.0.0.3"` (duration `0.7`) — `create_report` returns
`total_requests = 2` (the third line is never read), `total_errors = 1`, and a
report holding only the `"10.0.0.1"` aggregate: the bad line did increment
`total_errors` by exactly 1 and left the existing aggregate unchanged, but
processing did not continue to the subsequent line. -/
theorem C2_stops_at_first_coercion_failure :
    create_report
        [some ⟨"10.0.0.1", "0.5"⟩,
         some ⟨"10.0.0.2", "not_a_number"⟩,
         some ⟨"10.0.0.3", "0.7"⟩] 10 2 =
      .ok ⟨[⟨"10.0.0.1", 1, 1/2, none, some 50, some 100, some (1/2),
             some (1/2), some (1/2)⟩], 2, 1⟩ := by
  with_unfolding_all decide

/-! ## Claim C3 -/

/-- **C3.** Code-bug evidence: a line that does not match the record pattern
is fatal.  `parse_line` returns `None`, and `request['remote_addr']` then
raises `TypeError`, which the `except (ValueError, KeyError)` clause does not
catch: `create_report` raises instead of returning a `Report`, and
`total_errors` is never incremented. -/
theorem C3_nonmatching_line_raises :
    create_report [some ⟨"10.0.0.1", "0.5"⟩, none] 10 2 =
      .error .typeError := by
  with_unfolding_all decide

/-! ## Claim C4 -/

/-- **C4.** Counterexample: called on a non-empty accumulator state (one
aggregate with `time_sum = 0`, e.g. after a single request of duration `0`)
with `total_requests = 1` and `total_time = 0`, the summarizer *does* divide
by zero — the `time_perc` computation raises `ZeroDivisionError` — rather
than failing with any `EmptyInput` condition. -/
theorem C4_counterexample :
    summarize_report [⟨"10.0.0.1", 1, 0, some [0], none, none, none, none, none⟩]
        1 0 10 2 = .error .zeroDivisionError := by
  with_unfolding_all decide

/-- **C4** (amended).  What the code actually does at zero totals: (1) on an
empty aggregate state (the only state `create_report` can reach with
`total_requests = 0`) the summarizer performs no division at all and returns
an empty report — there is no `EmptyInput` failure; (2) on a non-empty state
(whose aggregates still hold their `requests` list, as all
accumulator-produced states do) with `limit ≥ 1`, if `total_requests = 0` or
`total_time = 0` the summarizer raises `ZeroDivisionError`. -/
theorem C4_zero_totals_behavior :
    (∀ (tr : ℕ) (tt : ℚ) (size acc : ℕ),
      summarize_report [] tr tt size acc = .ok ([], [])) ∧
    (∀ (st : List UrlReport) (tr : ℕ) (tt : ℚ) (size acc : ℕ),
      st ≠ [] → 1 ≤ size → (∀ r ∈ st, r.requests ≠ none) →
      (tr = 0 ∨ tt = 0) →
      summarize_report st tr tt size acc = .error .zeroDivisionError) := by
  constructor
  · intro tr tt size acc
    rw [summarize_report_eq]
    simp [summarizeAux]
  · intro st tr tt size acc hst hsize hreq hzero
    obtain ⟨h, t, htop, hmem⟩ := top_head hst hsize
    rw [summarize_report_eq, htop,
      summarizeAux_head_error (processUrlReport_zeroDiv (hreq h hmem) hzero)]

/-- **C4** witness: the amended theorem applied at a concrete non-empty
state with `total_requests = 0`. -/
theorem C4_witness :
    summarize_report [⟨"10.0.0.1", 1, 0, some [0], none, none, none, none, none⟩]
        0 1 1 2 = .error .zeroDivisionError :=
  C4_zero_totals_behavior.2 _ 0 1 1 2 (by simp) (le_refl 1)
    (by with_unfolding_all decide) (Or.inl rfl)

/-! ## Claim C5 -/

/-- **C5.** Every row the summarizer outputs (when `total_requests > 0` and
`total_time > 0`) comes from an aggregate `a` of the input state and carries
`count_perc = round(100 * count / total_requests, accuracy)`,
`time_perc = round(100 * time_sum / total_time, accuracy)`,
`time_avg = round(time_sum / count, accuracy)`, `time_max = max(times)` and
`time_med = median(times)` — where `pyMedian` is `statistics.median`, which
averages the two middle values of an even-length sequence. -/
theorem C5_selected_row_statistics :
    ∀ (st : List UrlReport) (tr : ℕ) (tt : ℚ) (size acc : ℕ)
      (out st' : List UrlReport) (e : UrlReport),
      0 < tr → 0 < tt →
      summarize_report st tr tt size acc = .ok (out, st') → e ∈ out →
      ∃ a ∈ st, a.url = e.url ∧ a.count = e.count ∧ a.time_sum = e.time_sum ∧
        e.count_perc = some (pyRound (100 * (a.count : ℚ) / (tr : ℚ)) acc) ∧
        e.time_perc = some (pyRound (100 * a.time_sum / tt) acc) ∧
        e.time_avg = some (pyRound (a.time_sum / (a.count : ℚ)) acc) ∧
        ∃ rs tm md, a.requests = some rs ∧
          pyMax rs = .ok tm ∧ e.time_max = some tm ∧
          pyMedian rs = .ok md ∧ e.time_med = some md := by
  intro st tr tt size acc out st' e htr htt hok he
  rw [summarize_report_eq] at hok
  obtain ⟨r, hrmem, hpr⟩ := summarizeAux_ok_mem hok e he
  obtain ⟨rs, tm, md, hreq, _, _, hmax, hmed, hE⟩ := processUrlReport_ok hpr
  subst hE
  exact ⟨r, mem_of_mem_top hrmem, rfl, rfl, rfl, rfl, rfl, rfl,
    rs, tm, md, hreq, hmax, rfl, hmed, rfl⟩

/-- **C5** witness: the theorem applied to the concrete state holding one
aggregate for `"10.0.0.1"` with durations `[1, 3]` (`count = 2`,
`time_sum = 4`), `total_requests = 4`, `total_time = 4`, `limit = 5`,
`accuracy = 2`; the produced row has `count_perc = 50`, `time_perc = 100`,
`time_avg = 2`, `time_max = 3`, `time_med = 2` (median of the even-length
sequence `[1, 3]` is the average of the two middle values). -/
theorem C5_witness :
    ∃ a ∈ [(⟨"10.0.0.1", 2, 4, some [1, 3],
            none, none, none, none, none⟩ : UrlReport)],
      a.url = "10.0.0.1" ∧ a.count = 2 ∧ a.time_sum = 4 ∧
      (some (50 : ℚ)) = some (pyRound (100 * (a.count : ℚ) / ((4 : ℕ) : ℚ)) 2) ∧
      (some (100 : ℚ)) = some (pyRound (100 * a.time_sum / (4 : ℚ)) 2) ∧
      (some (2 : ℚ)) = some (pyRound (a.time_sum / (a.count : ℚ)) 2) ∧
      ∃ rs tm md, a.requests = some rs ∧
        pyMax rs = .ok tm ∧ (some (3 : ℚ)) = some tm ∧
        pyMedian rs = .ok md ∧ (some (2 : ℚ)) = some md := by
  have h := C5_selected_row_statistics
    [⟨"10.0.0.1", 2, 4, some [1, 3], none, none, none, none, none⟩]
    4 4 5 2
    [⟨"10.0.0.1", 2, 4, none, some 50, some 100, some 2, some 3, some 2⟩]
    [⟨"10.0.0.1", 2, 4, none, some 50, some 100, some 2, some 3, some 2⟩]
    ⟨"10.0.0.1", 2, 4, none, some 50, some 100, some 2, some 3, some 2⟩
    (by decide) (by with_unfolding_all decide)
    (by with_unfolding_all decide) (List.mem_cons_self ..)
  obtain ⟨a, ha, h1, h2, h3, h4, h5, h6, h7⟩ := h
  exact ⟨a, ha, h1, h2, h3, h4, h5, h6, h7⟩

/-! ## Claim C6 -/

/-- **C6.** Counterexample: not every numeric value of an output row is
rounded to the configured accuracy.  With one aggregate whose single observed
duration is `0.125` (so `time_sum` was accumulated to `0.12` at
`accuracy = 2`), the produced row has `time_max = 0.125`, which is not
representable with 2 decimal places: the source copies `max(times)` and
`median(times)` into the row without rounding. -/
theorem C6_counterexample :
    (summarize_report
        [⟨"10.0.0.1", 1, 12/100, some [125/1000], none, none, none, none, none⟩]
        1 (12/100) 10 2).map (fun p => p.1.map (fun e => e.time_max)) =
      .ok [some (125/1000)] ∧ ¬ hasDecimals (125/1000) 2 := by
  constructor
  · with_unfolding_all decide
  · unfold hasDecimals
    with_unfolding_all decide

/-- Rounding to `n` digits yields a value with at most `n` decimal places. -/
theorem hasDecimals_pyRound (q : ℚ) (n : ℕ) : hasDecimals (pyRound q n) n := by
  unfold hasDecimals pyRound
  rw [div_mul_cancel₀ _ (by positivity : ((10 : ℚ) ^ n) ≠ 0)]
  exact Rat.den_intCast _

/-- **C6** (amended).  The three derived quotient statistics of every output
row — `count_perc`, `time_perc` and `time_avg` — are rounded to the
configured accuracy; `time_max` and `time_med` are *not* rounded (they are
the raw maximum and median of the observed durations, as the counterexample
shows), and `time_sum` is passed through from the accumulator, which rounded
it at accumulation time. -/
theorem C6_quotient_fields_rounded :
    ∀ (st : List UrlReport) (tr : ℕ) (tt : ℚ) (size acc : ℕ)
      (out st' : List UrlReport) (e : UrlReport),
      summarize_report st tr tt size acc = .ok (out, st') → e ∈ out →
      ∃ cp tp ta, e.count_perc = some cp ∧ e.time_perc = some tp ∧
        e.time_avg = some ta ∧
        hasDecimals cp acc ∧ hasDecimals tp acc ∧ hasDecimals ta acc := by
  intro st tr tt size acc out st' e hok he
  rw [summarize_report_eq] at hok
  obtain ⟨r, hrmem, hpr⟩ := summarizeAux_ok_mem hok e he
  obtain ⟨rs, tm, md, _, _, _, _, _, hE⟩ := processUrlReport_ok hpr
  subst hE
  exact ⟨_, _, _, rfl, rfl, rfl, hasDecimals_pyRound .. , hasDecimals_pyRound ..,
    hasDecimals_pyRound ..⟩

/-- **C6** witness: the amended theorem applied to the run of the C5 witness;
the produced row's `count_perc = 50`, `time_perc = 100` and `time_avg = 2`
all have at most two decimal places. -/
theorem C6_witness :
    ∃ cp tp ta,
      (⟨"10.0.0.1", 2, 4, none, some 50, some 100, some 2, some 3,
        some 2⟩ : UrlReport).count_perc = some cp ∧
      (⟨"10.0.0.1", 2, 4, none, some 50, some 100, some 2, some 3,
        some 2⟩ : UrlReport).time_perc = some tp ∧
      (⟨"10.0.0.1", 2, 4, none, some 50, some 100, some 2, some 3,
        some 2⟩ : UrlReport).time_avg = some ta ∧
      hasDecimals cp 2 ∧ hasDecimals tp 2 ∧ hasDecimals ta 2 :=
  C6_quotient_fields_rounded
    [⟨"10.0.0.1", 2, 4, some [1, 3], none, none, none, none, none⟩]
    4 4 5 2
    [⟨"10.0.0.1", 2, 4, none, some 50, some 100, some 2, some 3, some 2⟩]
    [⟨"10.0.0.1", 2, 4, none, some 50, some 100, some 2, some 3, some 2⟩]
    ⟨"10.0.0.1", 2, 4, none, some 50, some 100, some 2, some 3, some 2⟩
    (by with_unfolding_all decide) (List.mem_cons_self ..)

/-! ## Claim C7 -/

theorem roundedSum_append (acc : ℕ) (rs : List ℚ) (d : ℚ) :
    roundedSum acc (rs ++ [d]) = pyRound (roundedSum acc rs + d) acc := by
  unfold roundedSum
  rw [List.foldl_append]
  rfl

/-- One aggregation step preserves the per-key invariant. -/
theorem addToReport_inv {acc : ℕ} {st : List UrlReport} {u : String} {d : ℚ}
    (h : ∀ r ∈ st, ∃ rs, r.requests = some rs ∧ r.count = rs.length ∧
      r.time_sum = roundedSum acc rs) :
    ∀ r ∈ addToReport st u d acc, ∃ rs, r.requests = some rs ∧
      r.count = rs.length ∧ r.time_sum = roundedSum acc rs := by
  intro r hr
  simp only [addToReport] at hr
  obtain ⟨x, hx, rfl⟩ := List.mem_map.mp hr
  have hx' : x ∈ st ∨ x = blankUrlReport u := by
    by_cases hc : ∃ r ∈ st, r.url = u
    · rw [if_pos hc] at hx
      exact .inl hx
    · rw [if_neg hc] at hx
      rcases List.mem_append.mp hx with h' | h'
      · exact .inl h'
      · exact .inr (List.mem_singleton.mp h')
  by_cases hxu : x.url = u
  · rw [if_pos hxu]
    rcases hx' with hxst | rfl
    · obtain ⟨rs, h1, h2, h3⟩ := h x hxst
      refine ⟨rs ++ [d], ?_, ?_, ?_⟩
      · simp [h1]
      · simp [h2]
      · show pyRound (x.time_sum + d) acc = roundedSum acc (rs ++ [d])
        rw [roundedSum_append, h3]
    · exact ⟨[d], rfl, rfl, rfl⟩
  · rw [if_neg hxu]
    rcases hx' with hxst | rfl
    · exact h x hxst
    · exact absurd rfl hxu

/-- **C7.** The accumulator invariant: after any sequence of `add` calls
(starting from the empty `report` dict), every aggregate's `count` equals the
number of durations recorded for its key and its `time_sum` equals the
accuracy-rounded running sum of those durations (each addition followed by
rounding). -/
theorem C7_accumulator_invariant :
    ∀ (acc : ℕ) (adds : List (String × ℚ)) (r : UrlReport),
      r ∈ applyAdds acc adds →
      ∃ rs, r.requests = some rs ∧ r.count = rs.length ∧
        r.time_sum = roundedSum acc rs := by
  intro acc adds
  have main : ∀ (l : List (String × ℚ)) (st : List UrlReport),
      (∀ r ∈ st, ∃ rs, r.requests = some rs ∧ r.count = rs.length ∧
        r.time_sum = roundedSum acc rs) →
      ∀ r ∈ l.foldl (fun s ud => addToReport s ud.1 ud.2 acc) st,
        ∃ rs, r.requests = some rs ∧ r.count = rs.length ∧
          r.time_sum = roundedSum acc rs := by
    intro l
    induction l with
    | nil => intro st hst; exact hst
    | cons a rest ih =>
      intro st hst
      exact ih _ (addToReport_inv hst)
  intro r hr
  exact main adds [] (by simp) r hr

/-- **C7** witness: after the additions
`("10.0.0.1", 1), ("10.0.0.2", 2), ("10.0.0.1", 3)` at accuracy 2, the
`"10.0.0.1"` aggregate has `count = 2`, `requests = [1, 3]` and
`time_sum = 4` — the rounded running sum of its durations. -/
theorem C7_witness :
    ∃ rs, (⟨"10.0.0.1", 2, 4, some [1, 3],
            none, none, none, none, none⟩ : UrlReport).requests = some rs ∧
      2 = rs.length ∧ (4 : ℚ) = roundedSum 2 rs :=
  C7_accumulator_invariant 2
    [("10.0.0.1", 1), ("10.0.0.2", 2), ("10.0.0.1", 3)] _
    (by with_unfolding_all decide)

/-! ## Claim C8 -/

theorem sumCounts_cons (a : UrlReport) (t : List UrlReport) :
    sumCounts (a :: t) = a.count + sumCounts t := by
  simp [sumCounts]

theorem sumCounts_append (l₁ l₂ : List UrlReport) :
    sumCounts (l₁ ++ l₂) = sumCounts l₁ + sumCounts l₂ := by
  simp [sumCounts]

/-- Mapping a function that bumps the `count` of the (unique) entry with key
`u` and fixes every other entry adds exactly 1 to the count total. -/
theorem sumCounts_map_update {u : String} (g : UrlReport → UrlReport)
    (hg : ∀ r : UrlReport, r.url = u → (g r).count = r.count + 1)
    (hg' : ∀ r : UrlReport, ¬ r.url = u → g r = r) :
    ∀ (st : List UrlReport), (st.map (fun r => r.url)).Nodup →
      (∃ r ∈ st, r.url = u) →
      sumCounts (st.map g) = sumCounts st + 1 := by
  intro st
  induction st with
  | nil =>
    intro _ hmem
    obtain ⟨r, hr, _⟩ := hmem
    cases hr
  | cons a t ih =>
    intro hnd hmem
    rw [List.map_cons, List.nodup_cons] at hnd
    obtain ⟨ha, hnt⟩ := hnd
    rw [List.map_cons, sumCounts_cons, sumCounts_cons]
    by_cases hau : a.url = u
    · have ht : t.map g = t := by
        conv_rhs => rw [← List.map_id t]
        apply List.map_congr_left
        intro x hx
        refine hg' x fun hxu => ha ?_
        rw [hau, ← hxu]
        exact List.mem_map_of_mem _ hx
      rw [ht, hg a hau]
      omega
    · have hmem' : ∃ r ∈ t, r.url = u := by
        obtain ⟨r, hr, hru⟩ := hmem
        rcases List.mem_cons.mp hr with rfl | hrt
        · exact absurd hru hau
        · exact ⟨r, hrt, hru⟩
      rw [hg' a hau, ih hnt hmem']
      omega

/-- The keys of the `report` dict after one aggregation step: unchanged for a
known key, extended by the new key otherwise. -/
theorem url_map_addToReport (st : List UrlReport) (u : String) (d : ℚ)
    (acc : ℕ) :
    (addToReport st u d acc).map (fun r => r.url) =
      if ∃ r ∈ st, r.url = u then st.map (fun r => r.url)
      else st.map (fun r => r.url) ++ [u] := by
  simp only [addToReport]
  have hg : ∀ x : UrlReport,
      ((if x.url = u then
          { x with count := x.count + 1,
                   time_sum := pyRound (x.time_sum + d) acc,
                   requests := some (x.requests.getD [] ++ [d]) }
        else x) : UrlReport).url = x.url := by
    intro x
    split <;> rfl
  split
  · rw [List.map_map]
    exact List.map_congr_left fun x _ => hg x
  · rw [List.map_append, List.map_append, List.map_map, List.map_map]
    refine congrArg₂ (· ++ ·) (List.map_congr_left fun x _ => hg x) ?_
    simp [hg, blankUrlReport]

/-- Aggregation steps keep the dict keys distinct. -/
theorem nodup_addToReport {st : List UrlReport} {u : String} {d : ℚ} {acc : ℕ}
    (h : (st.map (fun r => r.url)).Nodup) :
    ((addToReport st u d acc).map (fun r => r.url)).Nodup := by
  rw [url_map_addToReport]
  split
  · exact h
  · rename_i hc
    rw [List.nodup_append]
    refine ⟨h, List.nodup_singleton u, ?_⟩
    intro a ha hau
    rw [List.mem_singleton] at hau
    obtain ⟨x, hx, rfl⟩ := List.mem_map.mp ha
    exact hc ⟨x, hx, hau⟩

/-- One aggregation step adds exactly one to the total of all `count`s. -/
theorem sumCounts_addToReport {st : List UrlReport} {u : String} {d : ℚ}
    {acc : ℕ} (hnd : (st.map (fun r => r.url)).Nodup) :
    sumCounts (addToReport st u d acc) = sumCounts st + 1 := by
  simp only [addToReport]
  split
  · rename_i hc
    exact sumCounts_map_update _ (fun r hr => by rw [if_pos hr])
      (fun r hr => by rw [if_neg hr]) st hnd hc
  · rename_i hc
    rw [List.map_append, sumCounts_append]
    have h1 : st.map (fun r =>
        if r.url = u then
          { r with count := r.count + 1,
                   time_sum := pyRound (r.time_sum + d) acc,
                   requests := some (r.requests.getD [] ++ [d]) }
        else r) = st := by
      conv_rhs => rw [← List.map_id st]
      exact List.map_congr_left fun x hx => if_neg fun hxu => hc ⟨x, hx, hxu⟩
    rw [h1]
    simp [sumCounts, blankUrlReport]

/-- Loop invariant of `create_report`'s reading loop: whenever the loop
finishes normally, `total_requests' = total_errors' + Σ count` holds provided
it held on entry (with distinct dict keys), and at most one error is
recorded beyond those already present (the loop breaks at its first caught
error). -/
theorem report_loop_ok {acc : ℕ} :
    ∀ (lines : List LineMatch) (st : List UrlReport) (tr : ℕ) (tt : ℚ)
      (te : ℕ) {st' : List UrlReport} {tr' : ℕ} {tt' : ℚ} {te' : ℕ},
      report_loop acc lines st tr tt te = .ok (st', tr', tt', te') →
      (st.map (fun r => r.url)).Nodup → tr = te + sumCounts st →
      tr' = te' + sumCounts st' ∧ te' ≤ te + 1 := by
  intro lines
  induction lines with
  | nil =>
    intro st tr tt te st' tr' tt' te' h hnd hinv
    simp only [report_loop, Except.ok.injEq, Prod.mk.injEq] at h
    obtain ⟨h1, h2, h3, h4⟩ := h
    subst h1
    subst h2
    subst h4
    exact ⟨hinv, Nat.le_succ te⟩
  | cons line rest ih =>
    intro st tr tt te st' tr' tt' te' h hnd hinv
    unfold report_loop at h
    split at h
    · simp at h
    · rename_i pl
      split at h
      · simp only [Except.ok.injEq, Prod.mk.injEq] at h
        obtain ⟨h1, h2, h3, h4⟩ := h
        subst h1
        subst h2
        subst h4
        exact ⟨by omega, by omega⟩
      · rename_i rt hf
        exact ih _ _ _ _ h (nodup_addToReport hnd)
          (by rw [sumCounts_addToReport hnd]; omega)

/-- **C8.** For every run of `create_report` that returns a `Report`, the
returned counters satisfy
`total_requests = total_errors + Σ (count over all aggregates)`, where the
aggregates are the final accumulator state of the reading loop. -/
theorem C8_counters_balance :
    ∀ (lines : List LineMatch) (size acc : ℕ) (rep : Report),
      create_report lines size acc = .ok rep →
      ∃ st tr tt te, report_loop acc lines [] 0 0 0 = .ok (st, tr, tt, te) ∧
        rep.total_requests = tr ∧ rep.total_errors = te ∧
        tr = te + sumCounts st := by
  intro lines size acc rep h
  unfold create_report at h
  split at h
  · simp at h
  · rename_i st tr tt te hloop
    split at h
    · simp at h
    · rename_i top st' hsum
      injection h with h
      subst h
      exact ⟨st, tr, tt, te, hloop, rfl, rfl,
        (report_loop_ok lines [] 0 0 0 hloop (by simp) (by simp [sumCounts])).1⟩

/-- **C8** witness: the single line whose duration field is the literal `-`
(unknown duration) is counted once in `total_requests` and once in
`total_errors`, and the aggregate state stays empty: `1 = 1 + 0`. -/
theorem C8_witness :
    ∃ st tr tt te,
      report_loop 2 [some ⟨"10.0.0.1", "-"⟩] [] 0 0 0 =
        .ok (st, tr, tt, te) ∧
      (Report.mk [] 1 1).total_requests = tr ∧
      (Report.mk [] 1 1).total_errors = te ∧ tr = te + sumCounts st :=
  C8_counters_balance [some ⟨"10.0.0.1", "-"⟩] 10 2 ⟨[], 1, 1⟩
    (by with_unfolding_all decide)

/-! ## Claim C9 -/

/-- **C9.** Counterexample to idempotence: on the single-aggregate state for
`"10.0.0.1"` (one duration `1`), the first summarizer call succeeds and
returns the mutated state — `requests` has been popped from the selected
entry — and the very same call on that returned state raises `KeyError`
(`url_report.pop('requests')` on a dict that no longer has the key) instead
of succeeding with identical output. -/
theorem C9_counterexample :
    summarize_report
        [⟨"10.0.0.1", 1, 1, some [1], none, none, none, none, none⟩]
        1 1 5 2 =
      .ok ([⟨"10.0.0.1", 1, 1, none, some 100, some 100, some 1, some 1,
             some 1⟩],
           [⟨"10.0.0.1", 1, 1, none, some 100, some 100, some 1, some 1,
             some 1⟩]) ∧
    summarize_report
        [⟨"10.0.0.1", 1, 1, none, some 100, some 100, some 1, some 1, some 1⟩]
        1 1 5 2 = .error .keyError := by
  constructor
  · with_unfolding_all decide
  · with_unfolding_all decide

/-- **C9** (amended).  The summarizer is idempotent only when it selects no
entry: with `limit = 0` it returns empty output and the state unchanged (and
likewise for the empty state), so repeating such a call gives identical
results.  Otherwise the call mutates its input: every produced row has had
its `requests` list popped, and a summarizer call on a state whose entries
all lack their `requests` list raises `KeyError` — so re-running on the
mutated state of a selecting call fails rather than reproducing the
output. -/
theorem C9_selection_mutates_state :
    (∀ (st : List UrlReport) (tr : ℕ) (tt : ℚ) (acc : ℕ),
      summarize_report st tr tt 0 acc = .ok ([], st)) ∧
    (∀ (st : List UrlReport) (tr : ℕ) (tt : ℚ) (size acc : ℕ)
       (out st' : List UrlReport),
      summarize_report st tr tt size acc = .ok (out, st') →
      ∀ e ∈ out, e.requests = none) ∧
    (∀ (st : List UrlReport) (tr : ℕ) (tt : ℚ) (size acc : ℕ),
      st ≠ [] → 1 ≤ size → (∀ r ∈ st, r.requests = none) →
      summarize_report st tr tt size acc = .error .keyError) := by
  refine ⟨?_, ?_, ?_⟩
  · intro st tr tt acc
    rw [summarize_report_eq]
    have hk : (if 0 < st.length then 0 else st.length) = 0 := by
      split <;> omega
    rw [hk, List.take_zero]
    rfl
  · intro st tr tt size acc out st' hok e he
    rw [summarize_report_eq] at hok
    obtain ⟨r, _, hpr⟩ := summarizeAux_ok_mem hok e he
    obtain ⟨rs, tm, md, _, _, _, _, _, hE⟩ := processUrlReport_ok hpr
    subst hE
    rfl
  · intro st tr tt size acc hst hsize hreq
    obtain ⟨h, t, htop, hmem⟩ := top_head hst hsize
    rw [summarize_report_eq, htop,
      summarizeAux_head_error (processUrlReport_keyError (hreq h hmem))]

/-- **C9** witness: the amended theorem applied at concrete states — a
`limit = 0` call that returns the state unchanged, a selecting call whose
output row has `requests` popped, and a `KeyError` on a state whose single
aggregate lacks its `requests` list. -/
theorem C9_witness :
    summarize_report
        [⟨"10.0.0.1", 2, 3, some [1, 2], none, none, none, none, none⟩]
        2 3 0 2 =
      .ok ([], [⟨"10.0.0.1", 2, 3, some [1, 2], none, none, none, none,
                 none⟩]) ∧
    (∀ e ∈ [(⟨"10.0.0.1", 1, 1, none, some 100, some 100, some 1, some 1,
              some 1⟩ : UrlReport)], e.requests = none) ∧
    summarize_report
        [⟨"10.0.0.2", 1, 2, none, none, none, none, none, none⟩] 2 2 5 2 =
      .error .keyError :=
  ⟨C9_selection_mutates_state.1 _ 2 3 2,
   C9_selection_mutates_state.2.1
     [⟨"10.0.0.1", 1, 1, some [1], none, none, none, none, none⟩] 1 1 5 2
     [⟨"10.0.0.1", 1, 1, none, some 100, some 100, some 1, some 1, some 1⟩]
     [⟨"10.0.0.1", 1, 1, none, some 100, some 100, some 1, some 1, some 1⟩]
     (by with_unfolding_all decide),
   C9_selection_mutates_state.2.2 _ 2 2 5 2 (by simp) (by omega)
     (by with_unfolding_all decide)⟩

/-! ## Claim C10 -/

/-- **C10.** In every run of `create_report` that returns a `Report`,
`total_errors ≤ 1`: the reading loop breaks at the first line whose duration
fails numeric coercion, so the per-line error counter can never exceed
one. -/
theorem C10_total_errors_le_one :
    ∀ (lines : List LineMatch) (size acc : ℕ) (rep : Report),
      create_report lines size acc = .ok rep → rep.total_errors ≤ 1 := by
  intro lines size acc rep h
  unfold create_report at h
  split at h
  · simp at h
  · rename_i st tr tt te hloop
    split at h
    · simp at h
    · rename_i top st' hsum
      injection h with h
      subst h
      exact (report_loop_ok lines [] 0 0 0 hloop (by simp)
        (by simp [sumCounts])).2

/-- **C10** witness: a run whose only line fails coercion returns
`total_errors = 1 ≤ 1`. -/
theorem C10_witness :
    create_report [some ⟨"10.0.0.1", "zzz"⟩] 3 2 = .ok ⟨[], 1, 1⟩ ∧
    (Report.mk [] 1 1).total_errors ≤ 1 :=
  ⟨by with_unfolding_all decide,
   C10_total_errors_le_one [some ⟨"10.0.0.1", "zzz"⟩] 3 2 ⟨[], 1, 1⟩
     (by with_unfolding_all decide)⟩

end LogAnalyzer
